import Mathlib

/-!
Shallow embedding of the conversation/context-management logic of the
`cf_ai_referee` chat agent (`src/server.ts`, plus the duplicate-detection
variant of the same class found in the repository).

External effects are modelled as explicit parameters and return values:
* the durable storage read (`ctx.storage.get("conversation_history")`) is the
  `storedHistory` argument;
* the value passed to `ctx.storage.put` (or the effect of `storage.delete`,
  which makes a later `get` yield `[]` via the `|| []` fallback) is the second
  component of the turn handler's result;
* every `new Date().toISOString()` call is an explicit `String` parameter;
* the model invocation is a black box: its final text (`event.text`) is the
  `assistantText` parameter, and a `TurnResponse.streamed` result marks the
  only code path on which the model is invoked.

`metadata` objects in the source carry exactly one field, `createdAt`, so a
message's metadata is modelled as `Option String` (the optional `createdAt`
value).
-/

/-- A segment of a UI message's `parts` array.  Only the `type` tag and the
`text` payload are ever inspected by the source; a part whose `text` field is
absent in JavaScript behaves like the empty string under the truthiness test
`part.text`, so absence is modelled as `""`. -/
structure MessagePart where
  type : String
  text : String
deriving DecidableEq

/-- An inbound UI message: a role, a `parts` array and optional metadata
(collapsed to its only field `createdAt`).  A message with no `parts` array is
modelled by `parts = []`. -/
structure UIMessage where
  role : String
  parts : List MessagePart
  metadata : Option String
deriving DecidableEq

/-- `StoredMessage` from `server.ts`: role, extracted content and optional
metadata (collapsed to its only field `createdAt`). -/
structure StoredMessage where
  role : String
  content : String
  metadata : Option String
deriving DecidableEq

/-- `MAX_MESSAGES_IN_CONTEXT` from `server.ts`. -/
def MAX_MESSAGES_IN_CONTEXT : Nat := 15

/-- `MAX_STORED_MESSAGES` from `server.ts`. -/
def MAX_STORED_MESSAGES : Nat := 100

/-- `getRecentMessages` from `server.ts`: identity below the context cap,
otherwise `slice(-MAX_MESSAGES_IN_CONTEXT)`, i.e. the last 15 entries. -/
def getRecentMessages (messages : List StoredMessage) : List StoredMessage :=
  if messages.length ≤ MAX_MESSAGES_IN_CONTEXT then
    messages
  else
    messages.drop (messages.length - MAX_MESSAGES_IN_CONTEXT)

/-- `trimStoredHistory` from `server.ts`: identity below the storage cap,
otherwise `slice(-MAX_STORED_MESSAGES)`, i.e. the last 100 entries. -/
def trimStoredHistory (messages : List StoredMessage) : List StoredMessage :=
  if messages.length ≤ MAX_STORED_MESSAGES then
    messages
  else
    messages.drop (messages.length - MAX_STORED_MESSAGES)

/-- JavaScript `String.prototype.trim`, modelled structurally on the
character list: remove leading and trailing whitespace. -/
def jsTrim (s : String) : String :=
  ⟨((s.data.dropWhile Char.isWhitespace).reverse.dropWhile Char.isWhitespace).reverse⟩

/-- `extractContent` from `server.ts`: concatenate the `text` of every part
whose `type` is `"text"` and whose `text` is truthy (non-empty), then trim
surrounding whitespace. -/
def extractContent (message : UIMessage) : String :=
  jsTrim (message.parts.foldl
    (fun content part =>
      if part.type == "text" && part.text != "" then content ++ part.text
      else content)
    "")

/-- `getLatestMessage` from `server.ts`: scan the inbound batch from the last
index down to 0 and return the first message whose extracted content is
non-empty (the downward index loop is embedded as `find?` on the reversed
list). -/
def getLatestMessage (incomingMessages : List UIMessage) : Option UIMessage :=
  incomingMessages.reverse.find? (fun msg => decide (0 < (extractContent msg).length))

/-- `getLatestUserMessage` from the duplicate-detection variant: like
`getLatestMessage` but only messages with `role == "user"` qualify. -/
def getLatestUserMessage (incomingMessages : List UIMessage) : Option UIMessage :=
  incomingMessages.reverse.find?
    (fun msg => msg.role == "user" && decide (0 < (extractContent msg).length))

/-- JavaScript `a || b` on strings, where `a` may be absent: an absent or
empty string falls through to `b`. -/
def jsOrString (a : Option String) (b : String) : String :=
  match a with
  | some s => if s = "" then b else s
  | none => b

/-- `toStoredMessage` from `server.ts`.  Returns `none` when the extracted
content is empty.  The `createdAt` value is
`timestamp || message.metadata?.createdAt || new Date().toISOString()`; the
fresh clock reading is the explicit parameter `fresh`. -/
def toStoredMessage (message : UIMessage) (timestamp : Option String)
    (fresh : String) : Option StoredMessage :=
  let content := extractContent message
  if content = "" then
    none
  else
    some { role := message.role, content := content,
           metadata := some (jsOrString timestamp (jsOrString message.metadata fresh)) }

/-- `toUIMessage` from `server.ts`: a stored message becomes a UI message with
a single text part holding the stored content. -/
def toUIMessage (message : StoredMessage) : UIMessage :=
  { role := message.role,
    parts := [{ type := "text", text := message.content }],
    metadata := message.metadata }

/-- `isDuplicate` from the duplicate-detection variant: some stored message is
a user message whose content equals the extracted inbound text. -/
def isDuplicate (storedHistory : List StoredMessage) (userMessageContent : String) : Bool :=
  storedHistory.any (fun msg => msg.role == "user" && msg.content == userMessageContent)

/-- The outcome of one turn of `onChatMessage`, as observable by the caller.
`streamed` is the only constructor on which the model is invoked; all other
constructors correspond to early `Response` returns. -/
inductive TurnResponse where
  | noValidMessage : TurnResponse
  | clearAck (messagesDeleted : Nat) : TurnResponse
  | nonUserIgnored : TurnResponse
  | duplicateSkipped : TurnResponse
  | streamed (contextMessages : List UIMessage) : TurnResponse
deriving DecidableEq

/-- `onChatMessage` from `server.ts`, as a pure function from the storage
snapshot, the inbound batch and the clock/model readings to the response and
the resulting stored log.  `now` is the timestamp taken before building the
context, `assistantText` is the model's final text, `assistantNow` the clock
reading for the assistant message, `fresh` the fallback clock reading inside
`toStoredMessage`.  The clear branch deletes the log (a later read yields
`[]`); the paths that perform no write leave the log unchanged. -/
def onChatMessage (storedHistory : List StoredMessage)
    (messages : List UIMessage) (now assistantText assistantNow fresh : String) :
    TurnResponse × List StoredMessage :=
  match getLatestMessage messages with
  | none => (TurnResponse.noValidMessage, storedHistory)
  | some latestMessage =>
    let messageContent := extractContent latestMessage
    let messageRole := latestMessage.role
    if messageRole == "system" && messageContent == "(clear requested)" then
      (TurnResponse.clearAck storedHistory.length, [])
    else if messageRole != "user" then
      (TurnResponse.nonUserIgnored, storedHistory)
    else
      let userMessageWithTimestamp : UIMessage :=
        { latestMessage with metadata := some now }
      let recentHistory := getRecentMessages storedHistory
      let contextMessages := recentHistory.map toUIMessage ++ [userMessageWithTimestamp]
      match toStoredMessage userMessageWithTimestamp (some now) fresh with
      | none => (TurnResponse.streamed contextMessages, storedHistory)
      | some userStoredMessage =>
        let assistantMessageObj : StoredMessage :=
          { role := "assistant", content := assistantText,
            metadata := some assistantNow }
        (TurnResponse.streamed contextMessages,
          trimStoredHistory (storedHistory ++ [userStoredMessage, assistantMessageObj]))

/-- `onChatMessage` from the duplicate-detection variant of the class: selects
only user messages, rejects duplicates against the stored log, and has no
clear branch. -/
def onChatMessageDedup (storedHistory : List StoredMessage)
    (messages : List UIMessage) (now assistantText assistantNow fresh : String) :
    TurnResponse × List StoredMessage :=
  match getLatestUserMessage messages with
  | none => (TurnResponse.noValidMessage, storedHistory)
  | some latestUserMessage =>
    let userMessageContent := extractContent latestUserMessage
    if isDuplicate storedHistory userMessageContent then
      (TurnResponse.duplicateSkipped, storedHistory)
    else
      let userMessageWithTimestamp : UIMessage :=
        { latestUserMessage with metadata := some now }
      let recentHistory := getRecentMessages storedHistory
      let contextMessages := recentHistory.map toUIMessage ++ [userMessageWithTimestamp]
      match toStoredMessage userMessageWithTimestamp (some now) fresh with
      | none => (TurnResponse.streamed contextMessages, storedHistory)
      | some userStoredMessage =>
        let assistantMessageObj : StoredMessage :=
          { role := "assistant", content := assistantText,
            metadata := some assistantNow }
        (TurnResponse.streamed contextMessages,
          trimStoredHistory (storedHistory ++ [userStoredMessage, assistantMessageObj]))

/-- C2: below each cap (15 for the context window, 100 for storage) the
windowing functions are the identity; above the cap the result has exactly
`cap` entries and is the suffix of that length, order preserved. -/
theorem window_trim_identity_and_suffix (l : List StoredMessage) :
    (l.length ≤ 15 → getRecentMessages l = l) ∧
    (15 < l.length →
      (getRecentMessages l).length = 15 ∧
      getRecentMessages l = l.drop (l.length - 15)) ∧
    (l.length ≤ 100 → trimStoredHistory l = l) ∧
    (100 < l.length →
      (trimStoredHistory l).length = 100 ∧
      trimStoredHistory l = l.drop (l.length - 100)) := by
  refine ⟨fun h => ?_, fun h => ⟨?_, ?_⟩, fun h => ?_, fun h => ⟨?_, ?_⟩⟩
  · simp [getRecentMessages, MAX_MESSAGES_IN_CONTEXT, h]
  · simp only [getRecentMessages, MAX_MESSAGES_IN_CONTEXT, if_neg (not_le.mpr h),
      List.length_drop]
    exact Nat.sub_sub_self (Nat.le_of_lt h)
  · simp [getRecentMessages, MAX_MESSAGES_IN_CONTEXT, if_neg (not_le.mpr h)]
  · simp [trimStoredHistory, MAX_STORED_MESSAGES, h]
  · simp only [trimStoredHistory, MAX_STORED_MESSAGES, if_neg (not_le.mpr h),
      List.length_drop]
    exact Nat.sub_sub_self (Nat.le_of_lt h)
  · simp [trimStoredHistory, MAX_STORED_MESSAGES, if_neg (not_le.mpr h)]

/-- A concrete stored log of `n` user messages with distinct numeric contents. -/
def numberedLog (n : Nat) : List StoredMessage :=
  (List.range n).map (fun i => { role := "user", content := toString i, metadata := none })

theorem numberedLog_length (n : Nat) : (numberedLog n).length = n := by
  simp [numberedLog]

/-- The stored history is never trimmed to more than the storage cap. -/
theorem trimStoredHistory_length_le (l : List StoredMessage) :
    (trimStoredHistory l).length ≤ MAX_STORED_MESSAGES := by
  unfold trimStoredHistory
  split
  · assumption
  · simp only [List.length_drop]
    omega

/-- A fresh user/assistant exchange used as concrete data in witnesses. -/
def newUserStored : StoredMessage :=
  { role := "user", content := "new question", metadata := some "t-user" }

/-- The assistant half of the concrete exchange. -/
def newAssistantStored : StoredMessage :=
  { role := "assistant", content := "new answer", metadata := some "t-assistant" }

/-- C1 counterexample: on a concrete 120-entry log, the stored log left after
appending one exchange and trimming is NOT the log obtained by dropping only
the 20 oldest original entries — the trim drops 22 of them (122 entries cut
to 100). -/
theorem trim_after_exchange_drops_more_than_20 :
    trimStoredHistory (numberedLog 120 ++ [newUserStored, newAssistantStored]) ≠
      (numberedLog 120).drop 20 ++ [newUserStored, newAssistantStored] := by
  intro h
  have hl := congrArg List.length h
  simp [trimStoredHistory, MAX_STORED_MESSAGES, numberedLog, List.length_drop] at hl

/-- C1 (amended): starting from any persisted log of 120 entries, appending
one exchange (2 entries) and applying the storage trim yields exactly the
last 100 entries: the 22 oldest original entries are dropped, the remaining
98 original entries are kept in order, and both new entries are retained at
the end. -/
theorem trim_after_exchange_on_120 (hist : List StoredMessage)
    (u a : StoredMessage) (h : hist.length = 120) :
    trimStoredHistory (hist ++ [u, a]) = hist.drop 22 ++ [u, a] ∧
    (trimStoredHistory (hist ++ [u, a])).length = 100 := by
  have hlen : (hist ++ [u, a]).length = 122 := by simp [h]
  have key : trimStoredHistory (hist ++ [u, a]) = hist.drop 22 ++ [u, a] := by
    unfold trimStoredHistory
    rw [if_neg (by rw [hlen]; norm_num [MAX_STORED_MESSAGES]), hlen]
    show (hist ++ [u, a]).drop (122 - MAX_STORED_MESSAGES) = _
    have h22 : (22 : Nat) ≤ hist.length := by omega
    rw [show 122 - MAX_STORED_MESSAGES = 22 from rfl,
      List.drop_append_of_le_length h22]
  refine ⟨key, ?_⟩
  rw [key]
  simp [List.length_drop, h]

/-- C1 witness: the amended statement instantiated on the concrete 120-entry
log and the concrete exchange. -/
theorem trim_after_exchange_on_120_witness :
    trimStoredHistory (numberedLog 120 ++ [newUserStored, newAssistantStored]) =
      (numberedLog 120).drop 22 ++ [newUserStored, newAssistantStored] ∧
    (trimStoredHistory (numberedLog 120 ++ [newUserStored, newAssistantStored])).length = 100 :=
  trim_after_exchange_on_120 (numberedLog 120) newUserStored newAssistantStored
    (numberedLog_length 120)

/-- C3: every value the turn handler writes back to storage respects the cap:
the trimmed append of an exchange has length ≤ 100 and, when the cap is
exceeded, equals the suffix obtained by dropping the oldest entries (FIFO);
moreover every path of `onChatMessage` either leaves the log untouched or
leaves a log of length ≤ 100. -/
theorem conversation_log_invariant :
    (∀ (hist : List StoredMessage) (u a : StoredMessage),
      (trimStoredHistory (hist ++ [u, a])).length ≤ MAX_STORED_MESSAGES ∧
      (MAX_STORED_MESSAGES < (hist ++ [u, a]).length →
        trimStoredHistory (hist ++ [u, a]) =
          (hist ++ [u, a]).drop ((hist ++ [u, a]).length - MAX_STORED_MESSAGES))) ∧
    (∀ (hist : List StoredMessage) (msgs : List UIMessage)
      (now atext anow fr : String),
      (onChatMessage hist msgs now atext anow fr).2 = hist ∨
      (onChatMessage hist msgs now atext anow fr).2.length ≤ MAX_STORED_MESSAGES) := by
  constructor
  · intro hist u a
    refine ⟨trimStoredHistory_length_le _, fun h => ?_⟩
    unfold trimStoredHistory
    rw [if_neg (not_le.mpr h)]
  · intro hist msgs now atext anow fr
    unfold onChatMessage
    rcases hm : getLatestMessage msgs with _ | m
    · left; rfl
    · simp only
      split
      · right; simp
      · split
        · left; rfl
        · split
          · left; rfl
          · right; exact trimStoredHistory_length_le _

/-- C3 witness: the invariant instantiated on the concrete 120-entry log, the
concrete exchange, and a concrete turn. -/
theorem conversation_log_invariant_witness :
    ((trimStoredHistory (numberedLog 120 ++ [newUserStored, newAssistantStored])).length ≤
        MAX_STORED_MESSAGES ∧
      (MAX_STORED_MESSAGES < (numberedLog 120 ++ [newUserStored, newAssistantStored]).length →
        trimStoredHistory (numberedLog 120 ++ [newUserStored, newAssistantStored]) =
          (numberedLog 120 ++ [newUserStored, newAssistantStored]).drop
            ((numberedLog 120 ++ [newUserStored, newAssistantStored]).length -
              MAX_STORED_MESSAGES))) ∧
    ((onChatMessage (numberedLog 120) [] "n" "a" "an" "f").2 = numberedLog 120 ∨
      (onChatMessage (numberedLog 120) [] "n" "a" "an" "f").2.length ≤ MAX_STORED_MESSAGES) :=
  ⟨conversation_log_invariant.1 (numberedLog 120) newUserStored newAssistantStored,
    conversation_log_invariant.2 (numberedLog 120) [] "n" "a" "an" "f"⟩

/-- C4: when the selected inbound message has role `system` and extracted
content exactly `"(clear requested)"`, the handler deletes the whole log
(resulting log `[]`, length 0) and acknowledges with the count of deleted
messages, without invoking the model. -/
theorem clear_request_deletes_log (hist : List StoredMessage)
    (msgs : List UIMessage) (now atext anow fr : String) (m : UIMessage)
    (hsel : getLatestMessage msgs = some m)
    (hrole : m.role = "system")
    (hcontent : extractContent m = "(clear requested)") :
    onChatMessage hist msgs now atext anow fr =
      (TurnResponse.clearAck hist.length, []) := by
  simp [onChatMessage, hsel, hrole, hcontent]

/-- The concrete clear-command inbound message. -/
def clearRequestMsg : UIMessage :=
  { role := "system",
    parts := [{ type := "text", text := "(clear requested)" }],
    metadata := none }

/-- C4 witness: against a stored log of 5 entries the clear command empties
the log and acknowledges 5 deleted messages. -/
theorem clear_request_deletes_log_witness :
    onChatMessage (numberedLog 5) [clearRequestMsg] "n" "a" "an" "f" =
      (TurnResponse.clearAck 5, []) :=
  clear_request_deletes_log (numberedLog 5) [clearRequestMsg] "n" "a" "an" "f"
    clearRequestMsg (by decide) (by decide) (by decide)

/-- C8: when the selected inbound message is neither a user message nor the
clear-command system message, the handler reports a no-op (`nonUserIgnored`),
does not invoke the model, and leaves the stored log unchanged. -/
theorem nonuser_message_ignored (hist : List StoredMessage)
    (msgs : List UIMessage) (now atext anow fr : String) (m : UIMessage)
    (hsel : getLatestMessage msgs = some m)
    (hrole : m.role ≠ "user")
    (hnc : ¬(m.role = "system" ∧ extractContent m = "(clear requested)")) :
    onChatMessage hist msgs now atext anow fr =
      (TurnResponse.nonUserIgnored, hist) := by
  have hc1 : (m.role == "system" && extractContent m == "(clear requested)") = false := by
    rw [← Bool.not_eq_true]
    simp only [Bool.and_eq_true, beq_iff_eq]
    exact hnc
  have hc2 : (m.role == "user") = false := by
    rw [← Bool.not_eq_true]
    simp only [beq_iff_eq]
    exact hrole
  simp only [onChatMessage, hsel, hc1, hc2]
  simp
  intro h
  exact absurd h hrole

/-- A concrete assistant-role inbound message with non-empty text. -/
def assistantHelloMsg : UIMessage :=
  { role := "assistant",
    parts := [{ type := "text", text := "hello" }],
    metadata := none }

/-- C8 witness: an assistant-role inbound message is ignored and the stored
log of 3 entries is unchanged. -/
theorem nonuser_message_ignored_witness :
    onChatMessage (numberedLog 3) [assistantHelloMsg] "n" "a" "an" "f" =
      (TurnResponse.nonUserIgnored, numberedLog 3) :=
  nonuser_message_ignored (numberedLog 3) [assistantHelloMsg] "n" "a" "an" "f"
    assistantHelloMsg (by decide) (by decide) (by decide)

/-- C5: in the duplicate-detection variant, when the stored log already holds
a user message whose content equals the extracted text of the selected
inbound user message, the handler reports the duplicate as a no-op: the log
is returned unchanged (no storage write) and the model is not invoked. -/
theorem duplicate_inbound_noop (hist : List StoredMessage)
    (msgs : List UIMessage) (now atext anow fr : String) (m : UIMessage)
    (hsel : getLatestUserMessage msgs = some m)
    (hdup : ∃ s ∈ hist, s.role = "user" ∧ s.content = extractContent m) :
    onChatMessageDedup hist msgs now atext anow fr =
      (TurnResponse.duplicateSkipped, hist) := by
  have hd : isDuplicate hist (extractContent m) = true := by
    rw [isDuplicate, List.any_eq_true]
    obtain ⟨s, hs, h1, h2⟩ := hdup
    exact ⟨s, hs, by simp [h1, h2]⟩
  simp [onChatMessageDedup, hsel, hd]

/-- The stored user message with content `"X"`. -/
def storedX : StoredMessage := { role := "user", content := "X", metadata := none }

/-- The inbound user message whose extracted text is `"X"`. -/
def inboundX : UIMessage :=
  { role := "user", parts := [{ type := "text", text := "X" }], metadata := none }

/-- C5 witness: a retried `user:"X"` against a log already holding
`user:"X"` is skipped with the log unchanged. -/
theorem duplicate_inbound_noop_witness :
    onChatMessageDedup [storedX] [inboundX] "n" "a" "an" "f" =
      (TurnResponse.duplicateSkipped, [storedX]) :=
  duplicate_inbound_noop [storedX] [inboundX] "n" "a" "an" "f" inboundX
    (by decide) ⟨storedX, by decide, by decide, by decide⟩

/-- A string is non-empty exactly when its length is positive. -/
theorem string_length_eq_zero_iff (s : String) : s.length = 0 ↔ s = "" := by
  cases s with
  | mk data =>
    constructor
    · intro h
      have hd : data = [] := by
        simpa [String.length] using h
      simp [String.ext_iff, hd]
    · intro h
      rw [h]
      rfl

/-- A string has positive length exactly when it is non-empty. -/
theorem string_length_pos_iff (s : String) : 0 < s.length ↔ s ≠ "" := by
  rw [Nat.pos_iff_ne_zero]
  exact not_congr (string_length_eq_zero_iff s)

/-- Modelled from the spec's words ("the concatenation of only the text parts
in order"): the plain concatenation of the `text` of the `"text"`-typed
parts, in their original order, with no whitespace trimming.  Used only to
compare the source's `extractContent` against the spec's description. -/
def textPartsConcat (message : UIMessage) : String :=
  ((message.parts.filter (fun p => p.type == "text")).map (fun p => p.text)).foldr
    (fun a r => a ++ r) ""

/-- The accumulator version of the `extractContent` fold: folding the parts
onto `acc` appends the concatenation of the non-empty text parts, which
coincides with the concatenation of all text parts. -/
theorem extract_foldl_eq (parts : List MessagePart) (acc : String) :
    parts.foldl
      (fun content part =>
        if part.type == "text" && part.text != "" then content ++ part.text
        else content)
      acc =
    acc ++ ((parts.filter (fun p => p.type == "text")).map (fun p => p.text)).foldr
      (fun a r => a ++ r) "" := by
  induction parts generalizing acc with
  | nil => simp [String.append_empty]
  | cons p ps ih =>
    simp only [List.foldl_cons]
    rw [ih]
    cases hp : (p.type == "text") with
    | true =>
      cases ht : (p.text != "") with
      | true =>
        simp [List.filter_cons, hp, ht, String.append_assoc]
      | false =>
        have hempty : p.text = "" := by simpa using ht
        simp [List.filter_cons, hp, ht, hempty, String.empty_append]
    | false =>
      simp [List.filter_cons, hp]

/-- C6 counterexample: on a message whose single text part is `" hi "`, the
code's `extractContent` returns `"hi"`, not the plain concatenation `" hi "`
of the text parts — the result is additionally whitespace-trimmed. -/
theorem extractContent_not_plain_concat :
    extractContent
        { role := "user", parts := [{ type := "text", text := " hi " }],
          metadata := none } ≠
      textPartsConcat
        { role := "user", parts := [{ type := "text", text := " hi " }],
          metadata := none } := by
  decide

/-- C6 (amended): `extractContent` returns the whitespace-trimmed
concatenation of the text-typed parts in their original order (non-text
parts ignored), and in particular returns the empty string on a message with
no text-typed parts. -/
theorem extractContent_characterization (m : UIMessage) :
    extractContent m = jsTrim (textPartsConcat m) ∧
    ((∀ p ∈ m.parts, p.type ≠ "text") → extractContent m = "") := by
  have key : extractContent m = jsTrim (textPartsConcat m) := by
    unfold extractContent textPartsConcat
    rw [extract_foldl_eq, String.empty_append]
  refine ⟨key, fun h => ?_⟩
  rw [key]
  have hfil : m.parts.filter (fun p => p.type == "text") = [] := by
    rw [List.filter_eq_nil_iff]
    intro p hp
    simp only [beq_iff_eq]
    exact h p hp
  unfold textPartsConcat
  rw [hfil]
  rfl

/-- C6 witness: a message with only an image part extracts to the empty
string. -/
theorem extractContent_characterization_witness :
    extractContent
        { role := "user", parts := [{ type := "image", text := "ignored" }],
          metadata := none } = "" :=
  (extractContent_characterization
    { role := "user", parts := [{ type := "image", text := "ignored" }],
      metadata := none }).2 (by decide)

/-- A successful `find?` splits the list at the first hit: everything before
the hit fails the predicate. -/
theorem find?_eq_some_split {α : Type} (p : α → Bool) :
    ∀ (l : List α) (a : α), l.find? p = some a →
      p a = true ∧ ∃ l1 l2, l = l1 ++ a :: l2 ∧ ∀ x ∈ l1, p x = false := by
  intro l
  induction l with
  | nil => intro a h; simp [List.find?] at h
  | cons b t ih =>
    intro a h
    cases hb : p b with
    | true =>
      simp only [List.find?_cons, hb] at h
      cases h
      exact ⟨hb, [], t, by simp, by simp⟩
    | false =>
      simp only [List.find?_cons, hb] at h
      obtain ⟨hp, l1, l2, rfl, hall⟩ := ih a h
      refine ⟨hp, b :: l1, l2, rfl, ?_⟩
      intro x hx
      rcases List.mem_cons.mp hx with rfl | hx
      · exact hb
      · exact hall x hx

/-- `find?` on the reversed list finds the last hit of the original list:
everything after it in the original order fails the predicate. -/
theorem reverse_find?_some {α : Type} (p : α → Bool) (l : List α) (a : α)
    (h : l.reverse.find? p = some a) :
    p a = true ∧ ∃ pre post, l = pre ++ a :: post ∧ ∀ x ∈ post, p x = false := by
  obtain ⟨hp, l1, l2, heq, hall⟩ := find?_eq_some_split p l.reverse a h
  refine ⟨hp, l2.reverse, l1.reverse, ?_, ?_⟩
  · have hrev : l.reverse.reverse = (l1 ++ a :: l2).reverse := by rw [heq]
    simpa [List.reverse_append] using hrev
  · intro x hx
    exact hall x (by simpa using hx)

/-- The batch `[sys:"hi", user:"", user:"real question"]` from the spec. -/
def demoSysHi : UIMessage :=
  { role := "system", parts := [{ type := "text", text := "hi" }], metadata := none }

/-- The empty-text user message of the demo batch. -/
def demoUserEmpty : UIMessage :=
  { role := "user", parts := [{ type := "text", text := "" }], metadata := none }

/-- The `user:"real question"` message of the demo batch. -/
def demoUserReal : UIMessage :=
  { role := "user", parts := [{ type := "text", text := "real question" }],
    metadata := none }

/-- The demo inbound batch of the spec. -/
def demoBatch : List UIMessage := [demoSysHi, demoUserEmpty, demoUserReal]

/-- A batch in which no message has non-empty extracted text. -/
def demoAllEmptyBatch : List UIMessage :=
  [demoUserEmpty, { role := "system", parts := [], metadata := none }]

/-- C7: `getLatestMessage` returns `none` exactly when no inbound message has
non-empty extracted text; a returned message has non-empty extracted text and
every message after it in the batch has empty extracted text (so it is the
most recent valid one); the duplicate-detection variant additionally requires
role `user`; and on the spec's demo batch the `"real question"` message is
selected while an all-empty batch selects nothing. -/
theorem latest_message_selection (msgs : List UIMessage) :
    (getLatestMessage msgs = none ↔ ∀ m ∈ msgs, extractContent m = "") ∧
    (∀ m, getLatestMessage msgs = some m →
      extractContent m ≠ "" ∧
      ∃ pre post, msgs = pre ++ m :: post ∧ ∀ x ∈ post, extractContent x = "") ∧
    (getLatestUserMessage msgs = none ↔
      ∀ m ∈ msgs, ¬(m.role = "user" ∧ extractContent m ≠ "")) ∧
    (∀ m, getLatestUserMessage msgs = some m →
      m.role = "user" ∧ extractContent m ≠ "" ∧
      ∃ pre post, msgs = pre ++ m :: post ∧
        ∀ x ∈ post, x.role = "user" → extractContent x = "") ∧
    getLatestMessage demoBatch = some demoUserReal ∧
    getLatestMessage demoAllEmptyBatch = none := by
  refine ⟨?_, ?_, ?_, ?_, by decide, by decide⟩
  · rw [getLatestMessage, List.find?_eq_none]
    constructor
    · intro h m hm
      have := h m (List.mem_reverse.mpr hm)
      simp only [decide_eq_true_eq, not_lt, Nat.le_zero] at this
      exact (string_length_eq_zero_iff _).mp this
    · intro h m hm
      simp only [decide_eq_true_eq, not_lt, Nat.le_zero]
      exact (string_length_eq_zero_iff _).mpr (h m (List.mem_reverse.mp hm))
  · intro m hm
    rw [getLatestMessage] at hm
    obtain ⟨hp, pre, post, heq, hall⟩ := reverse_find?_some _ msgs m hm
    refine ⟨?_, pre, post, heq, ?_⟩
    · simp only [decide_eq_true_eq] at hp
      intro he
      rw [he] at hp
      simp at hp
    · intro x hx
      have := hall x hx
      simp only [decide_eq_false_iff_not, not_lt, Nat.le_zero] at this
      exact (string_length_eq_zero_iff _).mp this
  · rw [getLatestUserMessage, List.find?_eq_none]
    constructor
    · intro h m hm hcon
      exact h m (List.mem_reverse.mpr hm)
        (by
          simp only [Bool.and_eq_true, beq_iff_eq, decide_eq_true_eq]
          exact ⟨hcon.1, (string_length_pos_iff _).mpr hcon.2⟩)
    · intro h m hm hp
      simp only [Bool.and_eq_true, beq_iff_eq, decide_eq_true_eq] at hp
      exact h m (List.mem_reverse.mp hm) ⟨hp.1, (string_length_pos_iff _).mp hp.2⟩
  · intro m hm
    rw [getLatestUserMessage] at hm
    obtain ⟨hp, pre, post, heq, hall⟩ := reverse_find?_some _ msgs m hm
    simp only [Bool.and_eq_true, beq_iff_eq, decide_eq_true_eq] at hp
    refine ⟨hp.1, ?_, pre, post, heq, ?_⟩
    · intro he
      have := hp.2
      rw [he] at this
      simp at this
    · intro x hx hxrole
      have := hall x hx
      simp only [Bool.and_eq_false_iff] at this
      rcases this with h1 | h2
      · exact absurd hxrole (by simpa using h1)
      · have : (extractContent x).length = 0 := by
          simpa [decide_eq_false_iff_not, not_lt, Nat.le_zero] using h2
        exact (string_length_eq_zero_iff _).mp this

/-- C7 witness: the characterization instantiated on the spec's demo batch. -/
theorem latest_message_selection_witness :
    getLatestMessage demoBatch = some demoUserReal ∧
    getLatestMessage demoAllEmptyBatch = none :=
  ⟨(latest_message_selection demoBatch).2.2.2.2.1,
    (latest_message_selection demoBatch).2.2.2.2.2⟩

/-- C9 counterexample: a stored message whose content is non-empty and
already trimmed and whose metadata carries the `createdAt` value `""` does
NOT round-trip: JavaScript `||` treats the empty string as falsy, so
`toStoredMessage` replaces it with the fresh clock reading. -/
theorem roundtrip_fails_on_empty_timestamp :
    toStoredMessage
        (toUIMessage { role := "user", content := "x", metadata := some "" })
        none "2024-01-01T00:00:00.000Z" ≠
      some { role := "user", content := "x", metadata := some "" } := by
  decide

/-- C9 (amended): for every stored message whose content is non-empty and
equal to its trimmed form and whose metadata carries a NON-EMPTY `createdAt`
value, converting to a UI message and back (with no explicit timestamp
argument) returns the same stored message — same role, content and
`createdAt`. -/
theorem toStoredMessage_toUIMessage_roundtrip (m : StoredMessage) (ts fr : String)
    (hc : m.content ≠ "") (htrim : jsTrim m.content = m.content)
    (hmeta : m.metadata = some ts) (hts : ts ≠ "") :
    toStoredMessage (toUIMessage m) none fr = some m := by
  have hext : extractContent (toUIMessage m) = m.content := by
    unfold extractContent toUIMessage
    simp only [List.foldl_cons, List.foldl_nil]
    rw [if_pos (by simp [hc]), String.empty_append]
    exact htrim
  unfold toStoredMessage
  rw [hext, if_neg hc]
  have hts' : jsOrString none (jsOrString (toUIMessage m).metadata fr) = ts := by
    simp [toUIMessage, jsOrString, hmeta, hts]
  rw [hts', ← hmeta]
  rfl

/-- C9 witness: a stored message with a real timestamp round-trips. -/
theorem toStoredMessage_toUIMessage_roundtrip_witness :
    toStoredMessage
        (toUIMessage
          { role := "user", content := "x",
            metadata := some "2023-05-05T10:00:00.000Z" })
        none "fresh" =
      some { role := "user", content := "x",
             metadata := some "2023-05-05T10:00:00.000Z" } :=
  toStoredMessage_toUIMessage_roundtrip
    { role := "user", content := "x", metadata := some "2023-05-05T10:00:00.000Z" }
    "2023-05-05T10:00:00.000Z" "fresh" (by decide) (by decide) rfl (by decide)

/-- C10: whenever message selection (either variant) returns a message,
converting that message with its `createdAt` replaced by a fresh timestamp
never yields `null` — the selection guarantees non-empty extracted text and
re-timestamping leaves the parts unchanged, so the null-check guard in
`onFinish` never skips the storage write. -/
theorem selected_message_conversion_never_fails (msgs : List UIMessage)
    (m : UIMessage) (now fr : String)
    (hsel : getLatestMessage msgs = some m ∨ getLatestUserMessage msgs = some m) :
    toStoredMessage { m with metadata := some now } (some now) fr ≠ none := by
  have hne : extractContent m ≠ "" := by
    intro he
    rcases hsel with h | h
    · rw [getLatestMessage] at h
      have hp := List.find?_some h
      rw [he] at hp
      simp at hp
    · rw [getLatestUserMessage] at h
      have hp := List.find?_some h
      rw [he] at hp
      simp at hp
  have hext : extractContent { m with metadata := some now } = extractContent m := rfl
  unfold toStoredMessage
  rw [hext, if_neg hne]
  simp

/-- C10 witness: the selected `"real question"` message of the demo batch
converts successfully after re-timestamping. -/
theorem selected_message_conversion_never_fails_witness :
    toStoredMessage { demoUserReal with metadata := some "T" } (some "T") "F" ≠ none :=
  selected_message_conversion_never_fails demoBatch demoUserReal "T" "F"
    (Or.inl (by decide))

/-- C2 witness: the caps behave as stated on a 10-entry and a 120-entry log. -/
theorem window_trim_identity_and_suffix_witness :
    trimStoredHistory (numberedLog 10) = numberedLog 10 ∧
    (getRecentMessages (numberedLog 120)).length = 15 ∧
    (trimStoredHistory (numberedLog 120)).length = 100 := by
  refine ⟨?_, ?_, ?_⟩
  · exact (window_trim_identity_and_suffix (numberedLog 10)).2.2.1
      (by simp [numberedLog_length])
  · exact ((window_trim_identity_and_suffix (numberedLog 120)).2.1
      (by simp [numberedLog_length])).1
  · exact ((window_trim_identity_and_suffix (numberedLog 120)).2.2.2
      (by simp [numberedLog_length])).1
